import Mathlib

/-!
Shallow embedding of `src/train.py` (sequence-to-sequence transformer training
script): the greedy decoding procedure, the validation runner, the
mixed-precision step controller (scaler/scheduler interaction), the checkpoint
save/preload logic and the dataset-preparation data flow of `get_ds`.

External collaborators (the transformer model, the tokenizers, the torch
serialization layer) are embedded as abstract function records, exactly as the
script consumes them.
-/

namespace TrainPy

/-- Tokenizer interface (external collaborator): the script only uses
`token_to_id` on this path (`tokenizer_tgt.token_to_id("[SOS]")`, `"[EOS]"`,
`"[PAD]"`). -/
structure Tokenizer where
  tokenToId : String → Nat

/-- Model interface (external collaborator), as used by `greedy_decode`:
`encode(source, source_mask)`, `decode(encoder_output, source_mask,
decoder_input, decoder_mask)` followed by taking the last position
`out[:, -1]` (embedded together as `decodeLast`, since the script only ever
reads the last position of the decoder output), and `project` producing the
logits over the target vocabulary. -/
structure Model (σ μ ε ρ : Type) where
  encode : σ → μ → ε
  decodeLast : ε → μ → List Nat → List (List Bool) → ρ
  project : ρ → List Int

/-! ## Mixed-precision step controller (train_model, lines 338-346)

```
scale = scaler.get_scale()
scaler.step(optimizer)
scaler.update()
skip_lr_sched = (scale > scaler.get_scale())
if not skip_lr_sched:
    scheduler.step()
...
global_step += 1
```
The GradScaler's internals are external: `scaler.update()` yields some new
scale factor, supplied here as the oracle argument `newScale`. `schedPos`
models the scheduler's internal position counter (`OneCycleLR.last_epoch`),
which `scheduler.step()` advances by one. -/

/-- Per-batch training-loop state visible to the step controller: the scaler's
current scale factor, the scheduler's internal position counter, and the
global step counter. -/
structure LoopState where
  scale : ℚ
  schedPos : Nat
  globalStep : Nat
deriving DecidableEq

/-- One batch of the training loop, restricted to the scaler/scheduler/step
bookkeeping of lines 338-346.  `newScale` is the scale factor reported by
`scaler.get_scale()` after `scaler.step(optimizer); scaler.update()`. -/
def batchStep (newScale : ℚ) (st : LoopState) : LoopState :=
  let scale := st.scale
  let skip_lr_sched := scale > newScale
  { scale := newScale
    schedPos := if skip_lr_sched then st.schedPos else st.schedPos + 1
    globalStep := st.globalStep + 1 }

/-- A run of consecutive batches, driven by the list of post-update scale
factors the GradScaler reports at each batch. -/
def runBatches (newScales : List ℚ) (st : LoopState) : LoopState :=
  newScales.foldl (fun s q => batchStep q s) st

/-- `torch.cuda.amp.GradScaler()` default initial scale factor (2^16). -/
def initScale : ℚ := 65536

/-- Training-loop state at a fresh start: fresh GradScaler, fresh OneCycleLR
(position counter at its base value, taken as 0), `global_step = 0`
(lines 265-278, 289). -/
def initState : LoopState :=
  { scale := initScale, schedPos := 0, globalStep := 0 }

/-! ## Checkpoint manager (train_model, lines 277-287 and 362-371) -/

/-- The four-field record written by `torch.save` at the end of every epoch
(lines 363-371) and read back on preload (lines 282-286).  The model and
optimizer state dicts are opaque blobs of type `β`. -/
structure CkptRecord (β : Type) where
  epoch : Nat
  model_state_dict : β
  optimizer_state_dict : β
  global_step : Nat
deriving DecidableEq

/-- Construction of the checkpoint record saved at the end of an epoch
(lines 363-371). -/
def saveCheckpoint (epoch : Nat) (modelSd optSd : β) (globalStep : Nat) :
    CkptRecord β :=
  { epoch := epoch
    model_state_dict := modelSd
    optimizer_state_dict := optSd
    global_step := globalStep }

/-- A file store mapping paths to checkpoint records. -/
def Store (β : Type) : Type := String → Option (CkptRecord β)

/-- Modelled from the spec: `torch.save` (external serialization library,
§4.4 of the spec: `save` "atomically writes a single record with all four
fields"), embedded as an update of a path-indexed store. -/
def torchSave (store : Store β) (path : String) (record : CkptRecord β) :
    Store β :=
  fun p => if p = path then some record else store p

/-- Modelled from the spec: `torch.load` (external serialization library,
§4.4 of the spec: `load(path)` returns the stored record, failing if absent),
embedded as a lookup in the path-indexed store. -/
def torchLoad (store : Store β) (path : String) : Option (CkptRecord β) :=
  store path

/-- The preload branch of `train_model` (lines 277-287): the resumed
`initial_epoch` is the stored epoch plus one and the resumed `global_step` is
the stored one; `none` models the fatal error when the file is absent. -/
def preloadCounters (store : Store β) (path : String) : Option (Nat × Nat) :=
  match torchLoad store path with
  | none => none
  | some state => some (state.epoch + 1, state.global_step)

/-- Training-loop state right after a preload (lines 277-289): the model and
optimizer are restored from the record, `global_step` is taken from the
record, but the GradScaler is constructed fresh (line 289) and the OneCycleLR
scheduler was constructed fresh at line 265 with its position counter at the
base value — neither is part of the checkpoint record. -/
def resumeState (c : CkptRecord β) : LoopState :=
  { scale := initScale, schedPos := 0, globalStep := c.global_step }

/-! ## Dataset preparation data flow (`get_ds`, lines 172-230) -/

/-- One raw translation item, reduced to the two sentence strings
`item['translation'][lang_src]` and `item['translation'][lang_tgt]`. -/
structure RawItem where
  srcText : String
  tgtText : String
deriving DecidableEq

/-- Insertion of an item into a list already sorted by source-sentence
length (stable, as Python's `sorted` is). -/
def insertBySrcLen (x : RawItem) : List RawItem → List RawItem
  | [] => [x]
  | y :: ys =>
    if x.srcText.length < y.srcText.length then x :: y :: ys
    else y :: insertBySrcLen x ys

/-- `sorted(train_ds_raw, key = lambda x: len(x['translation'][lang_src]))`
(line 187): stable sort by source-sentence length. -/
def sorted_train_ds (raw : List RawItem) : List RawItem :=
  raw.foldr insertBySrcLen []

/-- Lines 188 and 191: the two length-based filters applied to the sorted
training split (`len(src) < 150`, then `len(src) + 10 > len(tgt)`). -/
def filtered_sorted_train_ds (raw : List RawItem) : List RawItem :=
  (((sorted_train_ds raw).filter
      (fun k => k.srcText.length < 150)).filter
      (fun k => k.tgtText.length < k.srcText.length + 10))

/-- The dataset actually passed to `BilingualDataset` for training
(lines 194-201): the script computes `filtered_sorted_train_ds` but then
constructs the training dataset from `train_ds_raw` itself. -/
def train_ds_source (raw : List RawItem) : List RawItem :=
  let _fs := filtered_sorted_train_ds raw
  raw

/-! ## Greedy decoding (`greedy_decode`, lines 27-62) -/

/-- Modelled from the spec: `causal_mask(size)` is defined in `dataset.py`
(not under `src/`); per §4.1 it returns a boolean matrix of shape
(size, size) where position (i, j) is allowed (true) iff j ≤ i. -/
def causal_mask (size : Nat) : List (List Bool) :=
  (List.range size).map fun i => (List.range size).map fun j => decide (j ≤ i)

/-- `_, next_word = torch.max(prob, dim=1)` (line 51): the index of the first
maximum of the logits (lowest index on ties); 0 on an empty logit list. -/
def argmaxIdx : List Int → Nat
  | [] => 0
  | x :: xs =>
    (xs.enum.foldl (fun best p => if best.2 < p.2 then (p.1 + 1, p.2) else best)
      (0, x)).1

/-- One prediction step of the generation loop (lines 42-51): build a causal
mask sized to the current decoder input, run `model.decode` on the cached
encoder output, project the last position, take the argmax. -/
def nextWord (m : Model σ μ ε ρ) (encoderOutput : ε) (sourceMask : μ)
    (decoderInput : List Nat) : Nat :=
  argmaxIdx (m.project
    (m.decodeLast encoderOutput sourceMask decoderInput
      (causal_mask decoderInput.length)))

/-- The `while True` generation loop of `greedy_decode` (lines 37-61),
modelled with explicit fuel (`none` = the loop did not finish within `fuel`
iterations; `greedyLoop_isSome` shows `fuel = maxLen` always suffices when
`maxLen ≥ 1`).  Break when the current length equals `maxLen`; otherwise
append the predicted token and break if it is the end-of-sequence id. -/
def greedyLoop (m : Model σ μ ε ρ) (encoderOutput : ε) (sourceMask : μ)
    (eosIdx maxLen : Nat) : Nat → List Nat → Option (List Nat)
  | 0, _ => none
  | fuel + 1, decoderInput =>
    if decoderInput.length = maxLen then some decoderInput
    else if nextWord m encoderOutput sourceMask decoderInput = eosIdx then
      some (decoderInput ++ [nextWord m encoderOutput sourceMask decoderInput])
    else
      greedyLoop m encoderOutput sourceMask eosIdx maxLen fuel
        (decoderInput ++ [nextWord m encoderOutput sourceMask decoderInput])

/-- `greedy_decode(model, source, source_mask, tokenizer_src, tokenizer_tgt,
max_len, device)` (lines 27-62): compute the encoder output once, start from
the single start-of-sequence token, and run the generation loop. -/
def greedy_decode (m : Model σ μ ε ρ) (source : σ) (sourceMask : μ)
    (tokenizerSrc tokenizerTgt : Tokenizer) (maxLen fuel : Nat) :
    Option (List Nat) :=
  let sosIdx := tokenizerTgt.tokenToId "[SOS]"
  let eosIdx := tokenizerTgt.tokenToId "[EOS]"
  let encoderOutput := m.encode source sourceMask
  greedyLoop m encoderOutput sourceMask eosIdx maxLen fuel [sosIdx]

/-- A call to the external model made by `greedy_decode`: the one `encode`
call, or a `decode` call together with the encoder output it receives. -/
inductive ModelCall (ε : Type) where
  | encodeCall : ModelCall ε
  | decodeCall (encoderOutput : ε) : ModelCall ε
deriving DecidableEq

/-- Whether a model call is the `encode` call. -/
def isEncodeCall : ModelCall ε → Bool
  | ModelCall.encodeCall => true
  | ModelCall.decodeCall _ => false

/-- The `decode` calls issued by the generation loop (lines 37-61), each
recorded with the encoder output it is passed: the loop passes the variable
`encoder_output` unchanged at every iteration (line 47). -/
def greedyLoopCalls (m : Model σ μ ε ρ) (encoderOutput : ε) (sourceMask : μ)
    (eosIdx maxLen : Nat) : Nat → List Nat → List (ModelCall ε)
  | 0, _ => []
  | fuel + 1, decoderInput =>
    if decoderInput.length = maxLen then []
    else
      ModelCall.decodeCall encoderOutput ::
        (if nextWord m encoderOutput sourceMask decoderInput = eosIdx then []
         else greedyLoopCalls m encoderOutput sourceMask eosIdx maxLen fuel
                (decoderInput ++ [nextWord m encoderOutput sourceMask decoderInput]))

/-- The sequence of model calls made by one invocation of `greedy_decode`:
the single `encode` call of line 34, followed by the loop's `decode` calls,
all of which receive `model.encode source sourceMask`. -/
def greedy_decodeCalls (m : Model σ μ ε ρ) (source : σ) (sourceMask : μ)
    (tokenizerSrc tokenizerTgt : Tokenizer) (maxLen fuel : Nat) :
    List (ModelCall ε) :=
  ModelCall.encodeCall ::
    greedyLoopCalls m (m.encode source sourceMask) sourceMask
      (tokenizerTgt.tokenToId "[EOS]") maxLen fuel
      [tokenizerTgt.tokenToId "[SOS]"]

/-! ## Validation runner (`run_validation`, lines 65-149) -/

/-- One batch of the validation DataLoader, as consumed by `run_validation`:
`bsize` is `encoder_input.size(0)` (the batch dimension), with the encoder
input and mask handed to `greedy_decode`.  The `src_text`/`tgt_text` fields
are only printed/collected for metrics and are not modelled. -/
structure ValBatch (σ μ : Type) where
  bsize : Nat
  encoderInput : σ
  encoderMask : μ
deriving DecidableEq

/-- Observable event of the validation loop: a greedy-decode invocation on a
batch (with its output), the fatal assertion failure of line 101, or a
non-terminating greedy decode (fuel exhaustion in the embedding). -/
inductive ValEv (σ μ : Type) where
  | decodeEv (batch : ValBatch σ μ) (out : List Nat) : ValEv σ μ
  | assertFailEv : ValEv σ μ
  | divergedEv : ValEv σ μ
deriving DecidableEq

/-- The validation loop (lines 94-129): per batch, increment the count, check
`assert encoder_input.size(0) == 1` (a failure aborts the run before the
greedy decoder is invoked on that batch), run `greedy_decode`, and break once
the count reaches `numExamples`. -/
def valLoop (m : Model σ μ ε ρ) (tokenizerSrc tokenizerTgt : Tokenizer)
    (maxLen fuel numExamples : Nat) :
    Nat → List (ValBatch σ μ) → List (ValEv σ μ)
  | _, [] => []
  | count, b :: rest =>
    if b.bsize = 1 then
      match greedy_decode m b.encoderInput b.encoderMask tokenizerSrc
          tokenizerTgt maxLen fuel with
      | none => [ValEv.divergedEv]
      | some out =>
        ValEv.decodeEv b out ::
          (if count + 1 = numExamples then []
           else valLoop m tokenizerSrc tokenizerTgt maxLen fuel numExamples
                  (count + 1) rest)
    else [ValEv.assertFailEv]

/-- `run_validation` (lines 65-149), observed through its loop events.  The
source default is `num_examples=2`; `device`, `print_msg`, `global_step` and
the optional metrics `writer` only feed logging/metrics and are not
modelled. -/
def run_validation (m : Model σ μ ε ρ) (tokenizerSrc tokenizerTgt : Tokenizer)
    (maxLen fuel : Nat) (batches : List (ValBatch σ μ))
    (numExamples : Nat := 2) : List (ValEv σ μ) :=
  valLoop m tokenizerSrc tokenizerTgt maxLen fuel numExamples 0 batches

/-- The batches on which the greedy decoder was actually invoked during a
validation run, in order. -/
def decodedBatches : List (ValEv σ μ) → List (ValBatch σ μ) :=
  List.filterMap fun e =>
    match e with
    | ValEv.decodeEv b _ => some b
    | _ => none

/-! ## Concrete instances used to evaluate the definitions -/

/-- A concrete tokenizer: `[SOS] ↦ 1`, `[EOS] ↦ 2`, everything else 0. -/
def cTok : Tokenizer :=
  ⟨fun s => if s = "[SOS]" then 1 else if s = "[EOS]" then 2 else 0⟩

/-- A concrete model whose logits always select token 5 (never the
end-of-sequence id). -/
def cModel : Model Nat Nat Nat Nat :=
  { encode := fun _ _ => 7
    decodeLast := fun _ _ _ _ => 0
    project := fun _ => [0, 0, 0, 0, 0, 1] }

/-- A concrete model whose logits always select token 2 (the
end-of-sequence id of `cTok`). -/
def cModelEos : Model Nat Nat Nat Nat :=
  { encode := fun _ _ => 7
    decodeLast := fun _ _ _ _ => 0
    project := fun _ => [0, 0, 1] }

/-- Concrete validation batches of batch size 1. -/
def cB1 : ValBatch Nat Nat := ⟨1, 10, 0⟩

/-- A second concrete batch of batch size 1. -/
def cB2 : ValBatch Nat Nat := ⟨1, 20, 0⟩

/-- A third concrete batch of batch size 1. -/
def cB3 : ValBatch Nat Nat := ⟨1, 30, 0⟩

/-- A concrete batch of batch size 2 (violating the validation
precondition). -/
def cBad : ValBatch Nat Nat := ⟨2, 40, 0⟩

/-! ## Theorems -/

/-- Unfolding of `greedy_decode` to its generation loop. -/
theorem greedy_decode_eq (m : Model σ μ ε ρ) (source : σ) (sourceMask : μ)
    (tS tT : Tokenizer) (maxLen fuel : Nat) :
    greedy_decode m source sourceMask tS tT maxLen fuel
      = greedyLoop m (m.encode source sourceMask) sourceMask
          (tT.tokenToId "[EOS]") maxLen fuel [tT.tokenToId "[SOS]"] := rfl

/-- The generation loop terminates within `maxLen` iterations: any fuel
exceeding `maxLen - length` yields a value. -/
theorem greedyLoop_isSome (m : Model σ μ ε ρ) (encOut : ε) (sm : μ)
    (eosIdx maxLen : Nat) :
    ∀ (fuel : Nat) (dec : List Nat), dec.length ≤ maxLen →
      maxLen - dec.length < fuel →
      (greedyLoop m encOut sm eosIdx maxLen fuel dec).isSome := by
  intro fuel
  induction fuel with
  | zero => intro dec h1 h2; omega
  | succ f ih =>
    intro dec hlen hfuel
    rw [greedyLoop]
    by_cases h1 : dec.length = maxLen
    · simp [h1]
    · rw [if_neg h1]
      by_cases h2 : nextWord m encOut sm dec = eosIdx
      · simp [h2]
      · rw [if_neg h2]
        exact ih (dec ++ [nextWord m encOut sm dec])
          (by simp; omega) (by simp; omega)

/-- Invariant of the generation loop: a successful run preserves the head of
the decoder input, never shrinks it, and never exceeds `maxLen`. -/
theorem greedyLoop_shape (m : Model σ μ ε ρ) (encOut : ε) (sm : μ)
    (eosIdx maxLen : Nat) :
    ∀ (fuel : Nat) (dec out : List Nat), dec ≠ [] → dec.length ≤ maxLen →
      greedyLoop m encOut sm eosIdx maxLen fuel dec = some out →
      out.head? = dec.head? ∧ dec.length ≤ out.length ∧ out.length ≤ maxLen := by
  intro fuel
  induction fuel with
  | zero => intro dec out _ _ h; simp [greedyLoop] at h
  | succ f ih =>
    intro dec out hne hlen hrun
    rw [greedyLoop] at hrun
    by_cases h1 : dec.length = maxLen
    · rw [if_pos h1] at hrun
      obtain rfl : dec = out := Option.some.inj hrun
      exact ⟨rfl, Nat.le_refl _, Nat.le_of_eq h1⟩
    · rw [if_neg h1] at hrun
      by_cases h2 : nextWord m encOut sm dec = eosIdx
      · rw [if_pos h2] at hrun
        obtain rfl : dec ++ [nextWord m encOut sm dec] = out :=
          Option.some.inj hrun
        refine ⟨?_, by simp, by simp; omega⟩
        cases dec with
        | nil => exact absurd rfl hne
        | cons a t => rfl
      · rw [if_neg h2] at hrun
        obtain ⟨hh, hl1, hl2⟩ := ih (dec ++ [nextWord m encOut sm dec]) out
          (by simp) (by simp; omega) hrun
        have hhd : (dec ++ [nextWord m encOut sm dec]).head? = dec.head? := by
          cases dec with
          | nil => exact absurd rfl hne
          | cons a t => rfl
        refine ⟨hh.trans hhd, ?_, hl2⟩
        simp at hl1
        omega

/-- Starting from the single start token, a successful run of the loop with
`maxLen ≥ 2` performs at least one append. -/
theorem greedyLoop_two_le (m : Model σ μ ε ρ) (encOut : ε) (sm : μ)
    (eosIdx maxLen : Nat) (hm : 2 ≤ maxLen) :
    ∀ (fuel : Nat) (s0 : Nat) (out : List Nat),
      greedyLoop m encOut sm eosIdx maxLen fuel [s0] = some out →
      2 ≤ out.length := by
  intro fuel s0 out hrun
  cases fuel with
  | zero => simp [greedyLoop] at hrun
  | succ f =>
    rw [greedyLoop] at hrun
    rw [if_neg (by simp; omega)] at hrun
    by_cases h2 : nextWord m encOut sm [s0] = eosIdx
    · rw [if_pos h2] at hrun
      obtain rfl : [s0] ++ [nextWord m encOut sm [s0]] = out :=
        Option.some.inj hrun
      simp
    · rw [if_neg h2] at hrun
      obtain ⟨_, hl1, _⟩ := greedyLoop_shape m encOut sm eosIdx maxLen f
        ([s0] ++ [nextWord m encOut sm [s0]]) out (by simp) (by simp; omega)
        hrun
      simpa using hl1

/-- The end-of-sequence id never sits strictly inside the appended part of a
successful run: the loop breaks in the very step that appends it. -/
theorem greedyLoop_eos_last (m : Model σ μ ε ρ) (encOut : ε) (sm : μ)
    (eosIdx maxLen : Nat) :
    ∀ (fuel : Nat) (dec out : List Nat), eosIdx ∉ dec.drop 1 →
      greedyLoop m encOut sm eosIdx maxLen fuel dec = some out →
      eosIdx ∉ (out.drop 1).dropLast := by
  intro fuel
  induction fuel with
  | zero => intro dec out _ h; simp [greedyLoop] at h
  | succ f ih =>
    intro dec out hdec hrun
    rw [greedyLoop] at hrun
    by_cases h1 : dec.length = maxLen
    · rw [if_pos h1] at hrun
      obtain rfl : dec = out := Option.some.inj hrun
      intro hmem
      exact hdec (List.dropLast_subset _ hmem)
    · rw [if_neg h1] at hrun
      by_cases h2 : nextWord m encOut sm dec = eosIdx
      · rw [if_pos h2] at hrun
        obtain rfl : dec ++ [nextWord m encOut sm dec] = out :=
          Option.some.inj hrun
        cases dec with
        | nil => simp
        | cons a t =>
          intro hmem
          rw [show ((a :: t) ++ [nextWord m encOut sm (a :: t)]).drop 1
                = t ++ [nextWord m encOut sm (a :: t)] from rfl,
              List.dropLast_concat] at hmem
          exact hdec (by simpa using hmem)
      · rw [if_neg h2] at hrun
        refine ih (dec ++ [nextWord m encOut sm dec]) out ?_ hrun
        cases dec with
        | nil => simp
        | cons a t =>
          intro hmem
          rw [show ((a :: t) ++ [nextWord m encOut sm (a :: t)]).drop 1
                = t ++ [nextWord m encOut sm (a :: t)] from rfl] at hmem
          rcases List.mem_append.mp hmem with h | h
          · exact hdec (by simpa using h)
          · exact h2 (List.mem_singleton.mp h).symm

/-- The `decode` calls of the generation loop all carry the cached encoder
output. -/
theorem greedyLoopCalls_replicate (m : Model σ μ ε ρ) (encOut : ε) (sm : μ)
    (eosIdx maxLen : Nat) :
    ∀ (fuel : Nat) (dec : List Nat), ∃ k,
      greedyLoopCalls m encOut sm eosIdx maxLen fuel dec
        = List.replicate k (ModelCall.decodeCall encOut) := by
  intro fuel
  induction fuel with
  | zero => intro dec; exact ⟨0, rfl⟩
  | succ f ih =>
    intro dec
    rw [greedyLoopCalls]
    by_cases h1 : dec.length = maxLen
    · exact ⟨0, by rw [if_pos h1]; rfl⟩
    · rw [if_neg h1]
      by_cases h2 : nextWord m encOut sm dec = eosIdx
      · exact ⟨1, by rw [if_pos h2]; rfl⟩
      · obtain ⟨k, hk⟩ := ih (dec ++ [nextWord m encOut sm dec])
        exact ⟨k + 1, by rw [if_neg h2, hk, List.replicate_succ]⟩

/-- Replicated `decode` calls contain no `encode` call. -/
theorem countP_isEncodeCall_replicate (encOut : ε) (k : Nat) :
    (List.replicate k (ModelCall.decodeCall encOut)).countP
      (fun c => isEncodeCall c) = 0 := by
  induction k with
  | zero => rfl
  | succ n ih => simp [List.replicate_succ, List.countP_cons, ih, isEncodeCall]

/-- C1: for every training step, after the optimizer step and scaler update,
if the scaler's scale factor after the step is strictly less than the scale
recorded before the step (overflow detected), the learning-rate scheduler's
internal position counter is unchanged by that step; otherwise the scheduler
advances by exactly 1. -/
theorem c1_scheduler_skip_rule (newScale : ℚ) (st : LoopState) :
    (batchStep newScale st).schedPos =
      if newScale < st.scale then st.schedPos else st.schedPos + 1 := rfl

/-- C2 (counterexample to the claim as stated): at `max_len = 1` the loop
breaks on the length check before any append, so the returned sequence is
just the start token and its length is 1, not at least 2. -/
theorem c2_cex :
    greedy_decode cModel 0 0 cTok cTok 1 1 = some [1]
      ∧ ¬ 2 ≤ ([1] : List Nat).length := by decide

/-- C2 (amended): for every model, source, source mask and `max_len ≥ 2`
(and enough fuel — `max_len` iterations always suffice, so the source loop
terminates), the sequence returned by `greedy_decode` starts with the
start-of-sequence token and has length at least 2 and at most `max_len`. -/
theorem c2_output_shape (m : Model σ μ ε ρ) (source : σ) (sourceMask : μ)
    (tS tT : Tokenizer) (maxLen fuel : Nat)
    (hm : 2 ≤ maxLen) (hf : maxLen ≤ fuel) :
    (greedy_decode m source sourceMask tS tT maxLen fuel).isSome
    ∧ ((greedy_decode m source sourceMask tS tT maxLen fuel).getD []).head?
        = some (tT.tokenToId "[SOS]")
    ∧ 2 ≤ ((greedy_decode m source sourceMask tS tT maxLen fuel).getD []).length
    ∧ ((greedy_decode m source sourceMask tS tT maxLen fuel).getD []).length
        ≤ maxLen := by
  rw [greedy_decode_eq]
  have hsome := greedyLoop_isSome m (m.encode source sourceMask) sourceMask
    (tT.tokenToId "[EOS]") maxLen fuel [tT.tokenToId "[SOS]"]
    (by simp; omega) (by simp; omega)
  obtain ⟨out, hout⟩ := Option.isSome_iff_exists.mp hsome
  obtain ⟨hh, hl1, hl2⟩ := greedyLoop_shape m (m.encode source sourceMask)
    sourceMask (tT.tokenToId "[EOS]") maxLen fuel [tT.tokenToId "[SOS]"] out
    (by simp) (by simp; omega) hout
  have h2le := greedyLoop_two_le m (m.encode source sourceMask) sourceMask
    (tT.tokenToId "[EOS]") maxLen hm fuel (tT.tokenToId "[SOS]") out hout
  rw [hout]
  exact ⟨rfl, by simpa using hh, h2le, hl2⟩

/-- C2 witness: concrete evaluation of the amended statement at `cModel`,
`max_len = 3`. -/
theorem c2_witness :
    (greedy_decode cModel 0 0 cTok cTok 3 3).isSome
    ∧ ((greedy_decode cModel 0 0 cTok cTok 3 3).getD []).head?
        = some (cTok.tokenToId "[SOS]")
    ∧ 2 ≤ ((greedy_decode cModel 0 0 cTok cTok 3 3).getD []).length
    ∧ ((greedy_decode cModel 0 0 cTok cTok 3 3).getD []).length ≤ 3 :=
  c2_output_shape cModel 0 0 cTok cTok 3 3 (by decide) (by decide)

/-- C3: in the loop step whose selected token equals the end-of-sequence id,
that token is appended and the loop stops (first conjunct), and consequently
the end-of-sequence id never occurs strictly inside the appended part of a
returned sequence — no token is ever appended after it (second conjunct). -/
theorem c3_eos_stops (m : Model σ μ ε ρ) (source : σ) (sourceMask : μ)
    (tS tT : Tokenizer) (maxLen fuel : Nat) (dec out : List Nat) :
    (dec.length ≠ maxLen →
      nextWord m (m.encode source sourceMask) sourceMask dec
          = tT.tokenToId "[EOS]" →
      greedyLoop m (m.encode source sourceMask) sourceMask
          (tT.tokenToId "[EOS]") maxLen (fuel + 1) dec
        = some (dec ++ [tT.tokenToId "[EOS]"]))
    ∧ (greedy_decode m source sourceMask tS tT maxLen fuel = some out →
        tT.tokenToId "[EOS]" ∉ (out.drop 1).dropLast) := by
  constructor
  · intro h1 h2
    rw [greedyLoop, if_neg h1, if_pos h2, h2]
  · intro hrun
    rw [greedy_decode_eq] at hrun
    exact greedyLoop_eos_last m (m.encode source sourceMask) sourceMask
      (tT.tokenToId "[EOS]") maxLen fuel [tT.tokenToId "[SOS]"] out
      (by simp) hrun

/-- C3 witness: at `cModelEos` the step that selects the end-of-sequence id
appends it and stops, and at `cModel` a full-length output has no interior
end-of-sequence token. -/
theorem c3_witness :
    greedyLoop cModelEos (cModelEos.encode 0 0) 0 (cTok.tokenToId "[EOS]") 4
        (2 + 1) [1] = some ([1] ++ [cTok.tokenToId "[EOS]"])
    ∧ cTok.tokenToId "[EOS]" ∉ (([1, 5, 5, 5] : List Nat).drop 1).dropLast :=
  ⟨(c3_eos_stops cModelEos 0 0 cTok cTok 4 2 [1] []).1 (by decide) (by decide),
   (c3_eos_stops cModel 0 0 cTok cTok 4 4 [1] [1, 5, 5, 5]).2 (by decide)⟩

/-- C4: in every invocation of `greedy_decode`, `model.encode` is called
exactly once, before the generation loop, and every subsequent `decode` call
receives that single cached encoder output. -/
theorem c4_encode_once (m : Model σ μ ε ρ) (source : σ) (sourceMask : μ)
    (tS tT : Tokenizer) (maxLen fuel : Nat) :
    (greedy_decodeCalls m source sourceMask tS tT maxLen fuel).countP
        (fun c => isEncodeCall c) = 1
    ∧ ∃ k, greedy_decodeCalls m source sourceMask tS tT maxLen fuel
        = ModelCall.encodeCall ::
            List.replicate k
              (ModelCall.decodeCall (m.encode source sourceMask)) := by
  obtain ⟨k, hk⟩ := greedyLoopCalls_replicate m (m.encode source sourceMask)
    sourceMask (tT.tokenToId "[EOS]") maxLen fuel [tT.tokenToId "[SOS]"]
  have hcalls : greedy_decodeCalls m source sourceMask tS tT maxLen fuel
      = ModelCall.encodeCall ::
          List.replicate k
            (ModelCall.decodeCall (m.encode source sourceMask)) := by
    unfold greedy_decodeCalls
    rw [hk]
  refine ⟨?_, ⟨k, hcalls⟩⟩
  rw [hcalls, List.countP_cons]
  simp [countP_isEncodeCall_replicate, isEncodeCall]

/-- `greedy_decode` terminates (returns a value) whenever `max_len ≥ 1` and
the fuel is at least `max_len`. -/
theorem greedy_decode_isSome (m : Model σ μ ε ρ) (source : σ) (sourceMask : μ)
    (tS tT : Tokenizer) (maxLen fuel : Nat) (hm : 1 ≤ maxLen)
    (hf : maxLen ≤ fuel) :
    (greedy_decode m source sourceMask tS tT maxLen fuel).isSome := by
  rw [greedy_decode_eq]
  exact greedyLoop_isSome m (m.encode source sourceMask) sourceMask
    (tT.tokenToId "[EOS]") maxLen fuel [tT.tokenToId "[SOS]"]
    (by simp; omega) (by simp; omega)

/-- The validation loop on size-1 batches decodes exactly `n - count`
batches (when that many remain and the break count `n` has not yet been
reached) and then stops. -/
theorem valLoop_take (m : Model σ μ ε ρ) (tS tT : Tokenizer)
    (maxLen fuel n : Nat) (hm : 1 ≤ maxLen) (hf : maxLen ≤ fuel) :
    ∀ (batches : List (ValBatch σ μ)) (count : Nat),
      (∀ b ∈ batches, b.bsize = 1) → count < n →
      n - count ≤ batches.length →
      valLoop m tS tT maxLen fuel n count batches
        = (batches.take (n - count)).map
            (fun b => ValEv.decodeEv b
              ((greedy_decode m b.encoderInput b.encoderMask tS tT maxLen
                fuel).getD [])) := by
  intro batches
  induction batches with
  | nil => intro count _ hc hl; simp at hl; omega
  | cons b rest ih =>
    intro count hsz hc hl
    have hb : b.bsize = 1 := hsz b (by simp)
    have hdec := greedy_decode_isSome m b.encoderInput b.encoderMask tS tT
      maxLen fuel hm hf
    obtain ⟨out, hout⟩ := Option.isSome_iff_exists.mp hdec
    by_cases hbreak : count + 1 = n
    · have h1 : n - count = 1 := by omega
      simp [valLoop, hb, hout, hbreak, h1]
    · have h1 : n - count = (n - (count + 1)) + 1 := by omega
      have hrec := ih (count + 1) (fun y hy => hsz y (by simp [hy]))
        (by omega) (by simp at hl ⊢; omega)
      rw [h1]
      simp [valLoop, hb, hout, hbreak, hrec, List.take_succ_cons]

/-- C8 (counterexample to the claim as stated): with `num_examples = 0` the
break test `count == num_examples` never fires (the count starts at 1), so a
single-batch dataset — which has at least 0 batches — is processed in full:
one example is decoded instead of zero. -/
theorem c8_cex :
    decodedBatches (run_validation cModel cTok cTok 3 3 [cB1] 0) = [cB1]
      ∧ [cB1] ≠ ([] : List (ValBatch Nat Nat)) := by decide

/-- C8 (amended): for every validation dataset whose batches all have batch
size 1 and which contains at least `num_examples ≥ 1` batches (the source
default is 2), the validation runner decodes exactly the first
`num_examples` batches and then stops, even if more batches are
available. -/
theorem c8_process_exactly (m : Model σ μ ε ρ) (tS tT : Tokenizer)
    (maxLen fuel n : Nat) (batches : List (ValBatch σ μ))
    (hn : 1 ≤ n) (hlen : n ≤ batches.length)
    (hsz : ∀ b ∈ batches, b.bsize = 1)
    (hm : 1 ≤ maxLen) (hf : maxLen ≤ fuel) :
    run_validation m tS tT maxLen fuel batches n
        = (batches.take n).map
            (fun b => ValEv.decodeEv b
              ((greedy_decode m b.encoderInput b.encoderMask tS tT maxLen
                fuel).getD []))
    ∧ decodedBatches (run_validation m tS tT maxLen fuel batches n)
        = batches.take n
    ∧ (run_validation m tS tT maxLen fuel batches n).length = n := by
  have hmain := valLoop_take m tS tT maxLen fuel n hm hf batches 0 hsz
    (by omega) (by omega)
  rw [Nat.sub_zero] at hmain
  have hrv : run_validation m tS tT maxLen fuel batches n
      = valLoop m tS tT maxLen fuel n 0 batches := rfl
  have hfm : ∀ (l : List (ValBatch σ μ)),
      decodedBatches (l.map
        (fun b => ValEv.decodeEv b
          ((greedy_decode m b.encoderInput b.encoderMask tS tT maxLen
            fuel).getD []))) = l := by
    intro l
    induction l with
    | nil => rfl
    | cons y ys ih => simp [decodedBatches] at ih ⊢; exact ih
  refine ⟨hrv.trans hmain, ?_, ?_⟩
  · rw [hrv, hmain, hfm]
  · rw [hrv, hmain]
    simp [List.length_take]
    omega

/-- C8 witness: three size-1 batches, `num_examples = 2`: exactly the first
two are decoded. -/
theorem c8_witness :
    run_validation cModel cTok cTok 3 3 [cB1, cB2, cB3] 2
        = ([cB1, cB2, cB3].take 2).map
            (fun b => ValEv.decodeEv b
              ((greedy_decode cModel b.encoderInput b.encoderMask cTok cTok 3
                3).getD []))
    ∧ decodedBatches (run_validation cModel cTok cTok 3 3 [cB1, cB2, cB3] 2)
        = [cB1, cB2, cB3].take 2
    ∧ (run_validation cModel cTok cTok 3 3 [cB1, cB2, cB3] 2).length = 2 :=
  c8_process_exactly cModel cTok cTok 3 3 2 [cB1, cB2, cB3] (by decide)
    (by decide) (by decide) (by decide) (by decide)

/-- Reaching a batch of size ≠ 1 aborts the validation loop with the
assertion failure of line 101, after decoding exactly the preceding size-1
batches — the offending batch itself is never decoded. -/
theorem valLoop_assert (m : Model σ μ ε ρ) (tS tT : Tokenizer)
    (maxLen fuel n : Nat) (hm : 1 ≤ maxLen) (hf : maxLen ≤ fuel)
    (b : ValBatch σ μ) (post : List (ValBatch σ μ)) (hb : b.bsize ≠ 1) :
    ∀ (pre : List (ValBatch σ μ)) (count : Nat),
      (∀ x ∈ pre, x.bsize = 1) → count + pre.length < n →
      valLoop m tS tT maxLen fuel n count (pre ++ b :: post)
        = pre.map (fun x => ValEv.decodeEv x
            ((greedy_decode m x.encoderInput x.encoderMask tS tT maxLen
              fuel).getD []))
          ++ [ValEv.assertFailEv] := by
  intro pre
  induction pre with
  | nil =>
    intro count _ _
    simp [valLoop, hb]
  | cons x xs ih =>
    intro count hsz hcount
    have hx : x.bsize = 1 := hsz x (by simp)
    have hdec := greedy_decode_isSome m x.encoderInput x.encoderMask tS tT
      maxLen fuel hm hf
    obtain ⟨out, hout⟩ := Option.isSome_iff_exists.mp hdec
    have hbreak : ¬ (count + 1 = n) := by simp at hcount; omega
    have hrec := ih (count + 1) (fun y hy => hsz y (by simp [hy]))
      (by simp at hcount ⊢; omega)
    simp [valLoop, hx, hout, hbreak, hrec]

/-- On size-1 batches the validation assertion never fires. -/
theorem valLoop_no_assert (m : Model σ μ ε ρ) (tS tT : Tokenizer)
    (maxLen fuel n : Nat) :
    ∀ (batches : List (ValBatch σ μ)) (count : Nat),
      (∀ x ∈ batches, x.bsize = 1) →
      ValEv.assertFailEv ∉ valLoop m tS tT maxLen fuel n count batches := by
  intro batches
  induction batches with
  | nil => intro count _; simp [valLoop]
  | cons x xs ih =>
    intro count hsz
    have hx : x.bsize = 1 := hsz x (by simp)
    cases hout : greedy_decode m x.encoderInput x.encoderMask tS tT maxLen
        fuel with
    | none => simp [valLoop, hx, hout]
    | some out =>
      by_cases hbreak : count + 1 = n
      · simp [valLoop, hx, hout, hbreak]
      · simp only [valLoop, hx, hout, hbreak, if_true, if_false, ite_false,
          eq_self_iff_true, List.mem_cons, not_or]
        refine ⟨by simp, ?_⟩
        simpa using ih (count + 1) (fun y hy => hsz y (by simp [hy]))

/-- C9 (counterexample to the claim as stated): a batch of size ≠ 1 that sits
beyond the `num_examples` break point is never examined, so the runner
completes without any assertion failure. -/
theorem c9_cex :
    cBad.bsize ≠ 1
      ∧ ValEv.assertFailEv
          ∉ run_validation cModel cTok cTok 3 3 [cB1, cBad] 1 := by decide

/-- C9 (amended): for every validation batch of size ≠ 1 that the runner
actually reaches (preceded by fewer than `num_examples` size-1 batches), the
run ends in the fatal assertion failure and the greedy decoder is invoked
only on the preceding batches — never on the offending one; for size-1
batches the assertion never fires. -/
theorem c9_assert_before_decode (m : Model σ μ ε ρ) (tS tT : Tokenizer)
    (maxLen fuel n : Nat) (pre post bs : List (ValBatch σ μ))
    (b : ValBatch σ μ) :
    ((∀ x ∈ pre, x.bsize = 1) → b.bsize ≠ 1 → pre.length < n →
      1 ≤ maxLen → maxLen ≤ fuel →
      run_validation m tS tT maxLen fuel (pre ++ b :: post) n
        = pre.map (fun x => ValEv.decodeEv x
            ((greedy_decode m x.encoderInput x.encoderMask tS tT maxLen
              fuel).getD []))
          ++ [ValEv.assertFailEv])
    ∧ ((∀ x ∈ bs, x.bsize = 1) →
        ValEv.assertFailEv ∉ run_validation m tS tT maxLen fuel bs n) := by
  constructor
  · intro hsz hb hlen hm hf
    exact valLoop_assert m tS tT maxLen fuel n hm hf b post hb pre 0 hsz
      (by omega)
  · intro hsz
    exact valLoop_no_assert m tS tT maxLen fuel n bs 0 hsz

/-- C9 witness: a size-2 batch in second position (with `num_examples = 2`)
aborts the run right after the first decode; a run over size-1 batches has no
assertion failure. -/
theorem c9_witness :
    run_validation cModel cTok cTok 3 3 ([cB1] ++ cBad :: [cB2]) 2
        = [cB1].map (fun x => ValEv.decodeEv x
            ((greedy_decode cModel x.encoderInput x.encoderMask cTok cTok 3
              3).getD []))
          ++ [ValEv.assertFailEv]
    ∧ ValEv.assertFailEv ∉ run_validation cModel cTok cTok 3 3 [cB1, cB2] 2 :=
  ⟨(c9_assert_before_decode cModel cTok cTok 3 3 2 [cB1] [cB2] [cB1, cB2]
      cBad).1 (by decide) (by decide) (by decide) (by decide) (by decide),
   (c9_assert_before_decode cModel cTok cTok 3 3 2 [cB1] [cB2] [cB1, cB2]
      cBad).2 (by decide)⟩

/-- C6: when a preload checkpoint storing epoch `e` and global step `gs` is
loaded, training resumes with `initial_epoch = e + 1` and with `global_step
= gs` exactly (not reset to 0). -/
theorem c6_preload_counters (β : Type) (store : Store β) (path : String)
    (e : Nat) (mb ob : β) (gs : Nat) :
    preloadCounters (torchSave store path (saveCheckpoint e mb ob gs)) path
      = some (e + 1, gs) := by
  simp [preloadCounters, torchSave, torchLoad, saveCheckpoint]

/-- C7: checkpoint round-trip — loading the record written by the checkpoint
save yields a record whose `epoch` and `global_step` equal the saved values
and whose model and optimizer state blobs are identical to the originals. -/
theorem c7_checkpoint_roundtrip (β : Type) (store : Store β) (path : String)
    (e : Nat) (mb ob : β) (gs : Nat) :
    torchLoad (torchSave store path (saveCheckpoint e mb ob gs)) path
        = some (saveCheckpoint e mb ob gs)
      ∧ (saveCheckpoint e mb ob gs).epoch = e
      ∧ (saveCheckpoint e mb ob gs).global_step = gs
      ∧ (saveCheckpoint e mb ob gs).model_state_dict = mb
      ∧ (saveCheckpoint e mb ob gs).optimizer_state_dict = ob := by
  refine ⟨?_, rfl, rfl, rfl, rfl⟩
  simp [torchLoad, torchSave]

set_option maxRecDepth 4000 in
/-- C10: the training dataset handed to `BilingualDataset` is the unfiltered
`train_ds_raw` split, whatever the sorting and the two length-based filters
compute; the second conjunct evaluates the filters on an item of source
length 150 to show they are not vacuous (they would drop it). -/
theorem c10_training_uses_unfiltered (raw : List RawItem) :
    train_ds_source raw = raw
      ∧ filtered_sorted_train_ds [⟨String.mk (List.replicate 150 'a'), "b"⟩]
          ≠ [⟨String.mk (List.replicate 150 'a'), "b"⟩] := by
  refine ⟨rfl, ?_⟩
  decide

/-- C5 (failing scenario): the schedule state is not reproduced across a
checkpoint resume.  A continuous run of two overflow-free batches reaches
scheduler position 2; saving after the first batch (epoch 0, global step 1)
and resuming puts the scheduler position counter back at its base value, so
after the same second batch the resumed run has position 1 while the global
step counters agree — the code never saves or restores the scheduler's
counter. -/
theorem c5_schedule_not_reproduced :
    (runBatches [initScale]
        (resumeState (saveCheckpoint 0 (0 : Nat) 0
          (runBatches [initScale] initState).globalStep))).globalStep
      = (runBatches [initScale, initScale] initState).globalStep
    ∧ (runBatches [initScale]
        (resumeState (saveCheckpoint 0 (0 : Nat) 0
          (runBatches [initScale] initState).globalStep))).schedPos
      ≠ (runBatches [initScale, initScale] initState).schedPos := by
  constructor
  · rfl
  · decide

end TrainPy
